import Mathlib

/-!
Verification of the countdown-numbers game core (file `src/app.rs` and the
input-handling part of `src/main.rs`).

Modelling conventions:
- Rust `u32` values are modelled as `Nat`; the few places where the 32-bit
  bound matters (`u32::parse` overflow, `try_into::<u32>()`) check the bound
  `4294967296` explicitly.
- Strings are modelled as `List Char`.
- Fallible code returns `Option`: for functions that can panic (the
  `expect` calls in `check_solution_numbers` and
  `check_solution_calculation`), the outer `none` models the panic.
- The fixed-size arrays `[Option<u32>; 4]` and `[Option<u32>; 20]` holding
  the number pools are modelled as functions `Fin 4 → Option Nat` and
  `Fin 20 → Option Nat`; the 6-slot selection array is modelled as a
  `List (Option Nat)` (theorems add a length hypothesis where the length
  matters).
- The thread-local random generator `ThreadRng` is modelled as an infinite
  stream `σ : Nat → Nat` of raw draws together with a cursor position
  `k : Nat` threaded through the state-changing operations; the Rust `App`
  struct field `rng` is a handle to thread-local state, so the cursor is
  kept outside the Lean `App` structure.  `rng.gen_range(lo..hi)` is
  modelled as `lo + σ k % (hi - lo)` (every value of the real generator is
  reachable this way, and no unreachable value is).
-/

/-- Number of slots in the large-number pool (`LARGE_NUMBER_COUNT`). -/
def LARGE_NUMBER_COUNT : Nat := 4

/-- Number of slots in the small-number pool (`SMALL_NUMBER_COUNT`). -/
def SMALL_NUMBER_COUNT : Nat := 20

/-- The screen tag (`CurrentScreen` in `app.rs`). -/
inductive CurrentScreen where
  | Introduction
  | PickingNumbers
  | Playing
  | DisplayingResult
deriving DecidableEq

/-- The game state (`App` in `app.rs`).  The `rng` field of the Rust struct
is a handle to thread-local generator state and is modelled outside this
structure (see the module docstring). -/
structure App where
  current_screen : CurrentScreen
  available_small_numbers : Fin 20 → Option Nat
  available_large_numbers : Fin 4 → Option Nat
  selected_numbers : List (Option Nat)
  target : Nat
  value_input : List Char
  feedback : List Char

/-- Whitespace predicate used by Rust `str::trim` and
`char::is_ascii_whitespace`; over the accepted input character set
(digits, parentheses, operators, space) only the space case is ever hit,
so one predicate faithfully serves both call sites. -/
def isWhitespaceChar (c : Char) : Bool :=
  c = ' ' || c = '\t' || c = '\n' || c = '\x0d' || c = '\x0c'

/-- Rust `str::trim`: drop leading whitespace, then trailing whitespace.
`trimTrail` removes trailing whitespace by structural recursion. -/
def trimTrail : List Char → List Char
  | [] => []
  | c :: cs =>
    let r := trimTrail cs
    if r = [] && isWhitespaceChar c then [] else c :: r

/-- Rust `str::trim` on a character list. -/
def trim (s : List Char) : List Char :=
  trimTrail (s.dropWhile isWhitespaceChar)

/-- Fragments produced by Rust `str::split(|c| !c.is_ascii_digit())`:
the list is split at every character satisfying `p`, separators are not
kept, and empty fragments at the boundaries are kept (`n` separators give
`n + 1` fragments). -/
def splitFrags (p : Char → Bool) : List Char → List (List Char)
  | [] => [[]]
  | c :: cs =>
    match splitFrags p cs with
    | [] => [[]]
    | f :: fs => if p c then [] :: f :: fs else (c :: f) :: fs

/-- Numeric value of a string of ASCII digits (the accumulating loop inside
Rust `u32::from_str`). -/
def parseDigits (frag : List Char) : Nat :=
  frag.foldl (fun accum c => 10 * accum + (c.toNat - 48)) 0

/-- Rust `str::parse::<u32>()` on an all-digit fragment: succeeds exactly
when the value fits in 32 bits, fails (is skipped by the scanner) on
overflow.  The scanner only applies this to nonempty all-digit fragments. -/
def parseU32 (frag : List Char) : Option Nat :=
  if parseDigits frag < 4294967296 then some (parseDigits frag) else none

/-- One step of the scanner fold in `get_solution_numbers`: push the
parsed value of a nonempty fragment whose `u32` parse succeeds, otherwise
leave the accumulator unchanged. -/
def scanStep (accum : List Nat) (val : List Char) : List Nat :=
  if val.isEmpty then accum
  else
    match parseU32 val with
    | some value => accum ++ [value]
    | none => accum

/-- The scanner `get_solution_numbers` from `app.rs`: split the input on
every non-digit character and fold the fragments with `scanStep`. -/
def get_solution_numbers (solution : List Char) : List Nat :=
  (splitFrags (fun c => !c.isDigit) solution).foldl scanStep []

/-- Spec-side restatement of the scanner, written from the words of
`spec.md` §4.4: split the input on every character that is not an ASCII
digit, discard empty fragments, parse each surviving fragment as an
unsigned integer, silently skipping fragments whose parse fails. -/
def scanSpec (s : List Char) : List Nat :=
  ((s.splitOnP (fun c => !c.isDigit)).filter (fun frag => !frag.isEmpty)).filterMap parseU32

/-- The `selected_numbers.map(|val| val.expect(..))` step at the top of
`check_solution_numbers`: extracts the value of every slot, and panics
(modelled by `none`) as soon as any slot is empty. -/
def expectAll : List (Option Nat) → Option (List Nat)
  | [] => some []
  | none :: _ => none
  | some v :: rest => (expectAll rest).map (fun l => v :: l)

/-- The frequency `HashMap` built by `check_solution_numbers`, modelled by
its lookup function: folding over the selected values, each value bumps its
own count (`entry(..).and_modify(|f| *f += 1).or_insert(1)`).  A key absent
from the map corresponds to count `0`. -/
def buildFreq (vals : List Nat) : Nat → Nat :=
  vals.foldl (fun accum val => fun v => if v = val then accum v + 1 else accum v)
    (fun _ => 0)

/-- The consuming loop of `check_solution_numbers`: for each used number in
order, return `false` if it is absent from the map (count `0`), otherwise
decrement its count (the Rust code removes the entry when the count is `1`,
which in the lookup-function view is the same as decrementing to `0`). -/
def consumeNumbers : List Nat → (Nat → Nat) → Bool
  | [], _ => true
  | number :: rest, unused_numbers =>
    if unused_numbers number = 0 then false
    else
      consumeNumbers rest
        (fun v => if v = number then unused_numbers v - 1 else unused_numbers v)

/-- `check_solution_numbers` from `app.rs`: `none` models the panic of the
`expect` when the selection is incomplete; otherwise `some b` where `b`
tells whether the used numbers form a sub-multiset of the selection. -/
def check_solution_numbers (solution_numbers : List Nat)
    (selected_numbers : List (Option Nat)) : Option Bool :=
  match expectAll selected_numbers with
  | none => none
  | some unused_number_values =>
    some (consumeNumbers solution_numbers (buildFreq unused_number_values))

/-- Arithmetic tokens of the solution language. -/
inductive Tok where
  | num (n : Nat)
  | plus
  | minus
  | star
  | slash
  | lparen
  | rparen
deriving DecidableEq

/-- Tokenizer for the solution language.  The second argument carries the
digits of a number currently being read.  Characters outside the accepted
set are a tokenization error. -/
def tokenizeCore : List Char → Option Nat → Option (List Tok)
  | [], none => some []
  | [], some n => some [Tok.num n]
  | c :: cs, pend =>
    if c.isDigit then tokenizeCore cs (some ((pend.getD 0) * 10 + (c.toNat - 48)))
    else
      let flushed : List Tok :=
        match pend with
        | some n => [Tok.num n]
        | none => []
      let tokped : Option (Option Tok) :=
        if isWhitespaceChar c then some none
        else if c = '+' then some (some Tok.plus)
        else if c = '-' then some (some Tok.minus)
        else if c = '*' then some (some Tok.star)
        else if c = '/' then some (some Tok.slash)
        else if c = '(' then some (some Tok.lparen)
        else if c = ')' then some (some Tok.rparen)
        else none
      match tokped with
      | none => none
      | some t => (tokenizeCore cs none).map (fun ts => flushed ++ t.toList ++ ts)

/-- Tokenize a solution string. -/
def tokenize (s : List Char) : Option (List Tok) :=
  tokenizeCore s none

/-- Exact rational value as an unreduced fraction (numerator over nonzero
denominator).  Unreduced fractions keep every operation a plain integer
computation. -/
structure Frac where
  num : Int
  den : Int
deriving DecidableEq

/-- Embed a natural number literal as a fraction. -/
def Frac.ofNat (n : Nat) : Frac := ⟨n, 1⟩

/-- Fraction addition. -/
def Frac.add (x y : Frac) : Frac := ⟨x.num * y.den + y.num * x.den, x.den * y.den⟩

/-- Fraction subtraction. -/
def Frac.sub (x y : Frac) : Frac := ⟨x.num * y.den - y.num * x.den, x.den * y.den⟩

/-- Fraction multiplication. -/
def Frac.mul (x y : Frac) : Frac := ⟨x.num * y.num, x.den * y.den⟩

/-- Fraction division (the caller checks the divisor is nonzero). -/
def Frac.div (x y : Frac) : Frac := ⟨x.num * y.den, x.den * y.num⟩

/-- A fraction with nonzero denominator is zero exactly when its numerator
is zero. -/
def Frac.isZero (x : Frac) : Bool := x.num = 0

mutual

/-- Parse an expression: a term followed by any number of `+`/`-` terms
(left associative).  The first argument is fuel, decremented on every
recursive call; the top-level entry point supplies more than enough. -/
def parseExpr : Nat → List Tok → Option (Frac × List Tok)
  | 0, _ => none
  | fuel + 1, ts => do
    let (v, ts1) ← parseTerm fuel ts
    parseExprOps fuel v ts1

/-- Left-associative loop over `+`/`-` operators. -/
def parseExprOps : Nat → Frac → List Tok → Option (Frac × List Tok)
  | 0, _, _ => none
  | fuel + 1, accum, ts =>
    match ts with
    | Tok.plus :: rest => do
      let (v, ts2) ← parseTerm fuel rest
      parseExprOps fuel (accum.add v) ts2
    | Tok.minus :: rest => do
      let (v, ts2) ← parseTerm fuel rest
      parseExprOps fuel (accum.sub v) ts2
    | _ => some (accum, ts)

/-- Parse a term: a factor followed by any number of `*`/`/` factors
(left associative). -/
def parseTerm : Nat → List Tok → Option (Frac × List Tok)
  | 0, _ => none
  | fuel + 1, ts => do
    let (v, ts1) ← parseFactor fuel ts
    parseTermOps fuel v ts1

/-- Left-associative loop over `*`/`/` operators.  Division by zero is an
evaluation error. -/
def parseTermOps : Nat → Frac → List Tok → Option (Frac × List Tok)
  | 0, _, _ => none
  | fuel + 1, accum, ts =>
    match ts with
    | Tok.star :: rest => do
      let (v, ts2) ← parseFactor fuel rest
      parseTermOps fuel (accum.mul v) ts2
    | Tok.slash :: rest => do
      let (v, ts2) ← parseFactor fuel rest
      if v.isZero then none else parseTermOps fuel (accum.div v) ts2
    | _ => some (accum, ts)

/-- Parse a factor: a number literal or a parenthesized expression. -/
def parseFactor : Nat → List Tok → Option (Frac × List Tok)
  | 0, _ => none
  | fuel + 1, ts =>
    match ts with
    | Tok.num n :: rest => some (Frac.ofNat n, rest)
    | Tok.lparen :: rest => do
      let (v, ts1) ← parseExpr fuel rest
      match ts1 with
      | Tok.rparen :: ts2 => some (v, ts2)
      | _ => none
    | _ => none

end

/-- Outcome of `num_parser::eval(..)` followed by `.as_int()` in
`check_solution_calculation`:
- `parseError`: `eval` returns `Err` (malformed expression) — the caller
  returns `None`;
- `nonIntValue`: `eval` succeeds but the value is not representable as an
  integer — the `expect` on `as_int` panics in the caller;
- `intValue v`: `eval` succeeds and `as_int` yields the integer `v`. -/
inductive EvalOutcome where
  | parseError
  | nonIntValue
  | intValue (v : Int)
deriving DecidableEq

/-- Modelled from the spec: the expression evaluator of §4.6 of `spec.md`.
The real evaluator is the external `num-parser` crate, whose source is not
part of this repository, so it is modelled from the specification words:
standard four-operator arithmetic with parentheses, conventional precedence
(`*`, `/` bind tighter than `+`, `-`), left-to-right associativity within a
precedence level, exact rational arithmetic, and parse errors (unbalanced
parentheses, trailing operators, empty expression, stray characters) are
reported rather than crashing.  A non-integer (fractional) result is
reported as `nonIntValue` (not representable as an integer, §4.6);
division by zero is treated as an evaluation error (the spec does not
address it, and no claim depends on the choice). -/
def specEval (s : List Char) : EvalOutcome :=
  match tokenize s with
  | none => EvalOutcome.parseError
  | some ts =>
    match parseExpr (4 * ts.length + 4) ts with
    | some (v, []) =>
      if v.num % v.den = 0 then EvalOutcome.intValue (v.num / v.den)
      else EvalOutcome.nonIntValue
    | _ => EvalOutcome.parseError

/-- `check_solution_calculation` from `app.rs`, parameterized by the
evaluator outcome function `e` (the `num-parser` dependency).  The result
`some r` models a normal return of `r`; the outer `none` models the panic
of one of the two `expect` calls: `as_int` failing (non-integer value), or
`try_into::<u32>()` failing (value negative or at least `2 ^ 32`). -/
def check_solution_calculation (e : List Char → EvalOutcome) (solution : List Char)
    (target : Nat) : Option (Option Nat) :=
  match e solution with
  | EvalOutcome.parseError => some none
  | EvalOutcome.nonIntValue => none
  | EvalOutcome.intValue v =>
    if 0 ≤ v ∧ v < 4294967296 then
      some (some (if v.toNat > target then v.toNat - target else target - v.toNat))
    else none

/-- `App::check_solution` from `app.rs`, parameterized by the evaluator
outcome function `e`.  `some r` models a normal return of `r : Option u32`;
the outer `none` models a panic (from `check_solution_numbers` on an
incomplete selection, or from `check_solution_calculation`). -/
def check_solution (e : List Char → EvalOutcome) (a : App) : Option (Option Nat) :=
  let input := trim a.value_input
  if (trim input).isEmpty then some none
  else
    let solution_numbers := get_solution_numbers input
    if 6 < solution_numbers.length then some none
    else
      match check_solution_numbers solution_numbers a.selected_numbers with
      | none => none
      | some false => some none
      | some true => check_solution_calculation e input a.target

/-- Fairness of a raw random stream: from any starting position, every
residue class modulo every positive modulus is eventually sampled.  A real
uniform generator has this property with probability one; it is exactly
what the rejection-sampling loops need to terminate. -/
def FairAt (σ : Nat → Nat) : Prop :=
  ∀ n k j : Nat, 0 < n → j < n → ∃ m, σ (k + m) % n = j

/-- The identity stream, a concrete fair stream used by witnesses. -/
def idStream : Nat → Nat := fun m => m

/-- The slot index sampled by the large-pool rejection loop at iteration
`m`, starting at cursor `k`: `rng.gen_range(0..LARGE_NUMBER_COUNT)`. -/
def largeIndexAt (σ : Nat → Nat) (k m : Nat) : Fin 4 :=
  ⟨σ (k + m) % 4, Nat.mod_lt _ (by decide)⟩

/-- The slot index sampled by the small-pool rejection loop at iteration
`m`, starting at cursor `k`: `rng.gen_range(0..SMALL_NUMBER_COUNT)`. -/
def smallIndexAt (σ : Nat → Nat) (k m : Nat) : Fin 20 :=
  ⟨σ (k + m) % 20, Nat.mod_lt _ (by decide)⟩

/-- Some iteration of the large-pool rejection loop samples an occupied
slot. -/
def largeHit (σ : Nat → Nat) (p : Fin 4 → Option Nat) (k : Nat) : Prop :=
  ∃ m, (p (largeIndexAt σ k m)).isSome = true

/-- Some iteration of the small-pool rejection loop samples an occupied
slot. -/
def smallHit (σ : Nat → Nat) (p : Fin 20 → Option Nat) (k : Nat) : Prop :=
  ∃ m, (p (smallIndexAt σ k m)).isSome = true

/-- For a fair stream, a pool with an occupied slot is eventually hit
(termination argument for the large-pool rejection loop). -/
def exists_large_hit (σ : Nat → Nat) (hf : FairAt σ) (p : Fin 4 → Option Nat) (k : Nat)
    (hA : (List.ofFn p).any (fun o => o.isSome) = true) : largeHit σ p k := by
  have h1 : ∃ o ∈ List.ofFn p, o.isSome = true := by simpa using hA
  obtain ⟨o, ho, hso⟩ := h1
  rw [List.mem_ofFn] at ho
  obtain ⟨j, hj⟩ := ho
  obtain ⟨m, hm⟩ := hf 4 k j.val (by decide) j.isLt
  refine ⟨m, ?_⟩
  have hidx : largeIndexAt σ k m = j := Fin.ext hm
  rw [hidx, hj]
  exact hso

/-- For a fair stream, a pool with an occupied slot is eventually hit
(termination argument for the small-pool rejection loop). -/
def exists_small_hit (σ : Nat → Nat) (hf : FairAt σ) (p : Fin 20 → Option Nat) (k : Nat)
    (hA : (List.ofFn p).any (fun o => o.isSome) = true) : smallHit σ p k := by
  have h1 : ∃ o ∈ List.ofFn p, o.isSome = true := by simpa using hA
  obtain ⟨o, ho, hso⟩ := h1
  rw [List.mem_ofFn] at ho
  obtain ⟨j, hj⟩ := ho
  obtain ⟨m, hm⟩ := hf 20 k j.val (by decide) j.isLt
  refine ⟨m, ?_⟩
  have hidx : smallIndexAt σ k m = j := Fin.ext hm
  rw [hidx, hj]
  exact hso

/-- `App::random_available_large_number_index` from `app.rs`: if no slot
is occupied return `none`; otherwise repeatedly sample a uniformly random
slot index until an occupied slot is found and return its index.  The
loop is modelled by `Nat.find` on the first iteration that samples an
occupied slot; the cursor advances past every consumed draw. -/
def random_available_large_number_index (σ : Nat → Nat) (hf : FairAt σ)
    (p : Fin 4 → Option Nat) (k : Nat) : Option (Fin 4) × Nat :=
  if hA : (List.ofFn p).any (fun o => o.isSome) = true then
    (some (largeIndexAt σ k (Nat.find (exists_large_hit σ hf p k hA))),
      k + Nat.find (exists_large_hit σ hf p k hA) + 1)
  else (none, k)

/-- `App::random_available_small_number_index` from `app.rs`; same
algorithm as the large-pool version, over the 20-slot pool. -/
def random_available_small_number_index (σ : Nat → Nat) (hf : FairAt σ)
    (p : Fin 20 → Option Nat) (k : Nat) : Option (Fin 20) × Nat :=
  if hA : (List.ofFn p).any (fun o => o.isSome) = true then
    (some (smallIndexAt σ k (Nat.find (exists_small_hit σ hf p k hA))),
      k + Nat.find (exists_small_hit σ hf p k hA) + 1)
  else (none, k)

/-- `App::is_number_selection_complete` from `app.rs`. -/
def is_number_selection_complete (a : App) : Bool :=
  !(a.selected_numbers.any (fun v => v.isNone))

/-- `App::pick_random_large_number` from `app.rs`: draw a random occupied
large-pool index; if the selection has an empty slot, move the drawn value
into the first empty selection slot and mark the pool slot empty. -/
def pick_random_large_number (σ : Nat → Nat) (hf : FairAt σ) (a : App) (k : Nat) :
    App × Nat :=
  match random_available_large_number_index σ hf a.available_large_numbers k with
  | (some index_value, k1) =>
    let result := a.available_large_numbers index_value
    match a.selected_numbers.findIdx? (fun v => v.isNone) with
    | some picked_index_value =>
      if result.isSome then
        ({ a with
            selected_numbers := a.selected_numbers.set picked_index_value result,
            available_large_numbers :=
              Function.update a.available_large_numbers index_value none },
          k1)
      else (a, k1)
    | none => (a, k1)
  | (none, k1) => (a, k1)

/-- `App::pick_random_small_number` from `app.rs`; same algorithm as the
large-pool version, over the 20-slot pool. -/
def pick_random_small_number (σ : Nat → Nat) (hf : FairAt σ) (a : App) (k : Nat) :
    App × Nat :=
  match random_available_small_number_index σ hf a.available_small_numbers k with
  | (some index_value, k1) =>
    let result := a.available_small_numbers index_value
    match a.selected_numbers.findIdx? (fun v => v.isNone) with
    | some picked_index_value =>
      if result.isSome then
        ({ a with
            selected_numbers := a.selected_numbers.set picked_index_value result,
            available_small_numbers :=
              Function.update a.available_small_numbers index_value none },
          k1)
      else (a, k1)
    | none => (a, k1)
  | (none, k1) => (a, k1)

/-- The drain loop of the exhaustion tests in `app.rs` (and the Drawer of
§4.2 of `spec.md`): repeatedly draw a random occupied large-pool index and
mark that slot empty, `n` times. -/
def drainLarge (σ : Nat → Nat) (hf : FairAt σ) :
    Nat → (Fin 4 → Option Nat) → Nat → (Fin 4 → Option Nat) × Nat
  | 0, p, k => (p, k)
  | n + 1, p, k =>
    match random_available_large_number_index σ hf p k with
    | (some i, k1) => drainLarge σ hf n (Function.update p i none) k1
    | (none, k1) => drainLarge σ hf n p k1

/-- The drain loop for the small pool. -/
def drainSmall (σ : Nat → Nat) (hf : FairAt σ) :
    Nat → (Fin 20 → Option Nat) → Nat → (Fin 20 → Option Nat) × Nat
  | 0, p, k => (p, k)
  | n + 1, p, k =>
    match random_available_small_number_index σ hf p k with
    | (some i, k1) => drainSmall σ hf n (Function.update p i none) k1
    | (none, k1) => drainSmall σ hf n p k1

/-- Swap two positions of a list (the swap inside the Fisher-Yates
shuffle). -/
def listSwap (l : List Nat) (i j : Nat) : List Nat :=
  ((l.set i (l.getD j 0)).set j (l.getD i 0))

/-- The rand crate `SliceRandom::shuffle`, modelled as Fisher-Yates: for
`i` from `len - 1` down to `1`, swap position `i` with a random position
in `0..=i`; one raw draw is consumed per step. -/
def shuffleFY (σ : Nat → Nat) : Nat → List Nat → Nat → List Nat × Nat
  | 0, l, k => (l, k)
  | i + 1, l, k => shuffleFY σ i (listSwap l (i + 1) (σ k % (i + 2))) (k + 1)

/-- `App::new` from `app.rs`: shuffle the seeded large pool `{25, 50, 75,
100}` and small pool (two copies each of `1..=10`), wrap every slot in
`Some`, start with an empty selection and input, and draw the target with
`rng.gen_range(100..1_000)`. -/
def App.new (σ : Nat → Nat) : App × Nat :=
  let largeP := shuffleFY σ 3 [25, 50, 75, 100] 0
  let smallP := shuffleFY σ 19
    [1, 1, 2, 2, 3, 3, 4, 4, 5, 5, 6, 6, 7, 7, 8, 8, 9, 9, 10, 10] largeP.2
  ({ current_screen := CurrentScreen.Introduction,
     available_small_numbers := fun i => some (smallP.1.getD i.val 0),
     available_large_numbers := fun i => some (largeP.1.getD i.val 0),
     selected_numbers := List.replicate 6 none,
     target := 100 + σ smallP.2 % 900,
     value_input := [],
     feedback := [] },
    smallP.2 + 1)

/-- `update_feedback` from `main.rs`: re-run `check_solution` and rewrite
the feedback string from the result.  `none` models the panic propagating
out of `check_solution`. -/
def update_feedback (e : List Char → EvalOutcome) (a : App) :
    Option (App × Option Nat) :=
  match check_solution e a with
  | none => none
  | some res =>
    some
      ({ a with
          feedback :=
            match res with
            | some 0 => " ✅".toList
            | some value => (" 📏 " ++ toString value).toList
            | none => [] },
        res)

/-- The `KeyCode::Char` arm of `handle_playing` in `main.rs`: append the
character to the input buffer if it belongs to the accepted set, then
refresh the feedback.  `none` models a panic propagating out of
`check_solution`. -/
def appendChar (e : List Char → EvalOutcome) (a : App) (c : Char) : Option App :=
  if ("01234567890()+-*/ ".toList).contains c then
    match update_feedback e { a with value_input := a.value_input ++ [c] } with
    | none => none
    | some q => some q.1
  else some a

/-- The `KeyCode::Backspace` arm of `handle_playing` in `main.rs`: pop the
last character of the input buffer; if one was popped and it was not
whitespace, refresh the feedback. -/
def backspace (e : List Char → EvalOutcome) (a : App) : Option App :=
  match a.value_input.getLast? with
  | none => some a
  | some c =>
    if isWhitespaceChar c then some { a with value_input := a.value_input.dropLast }
    else
      match update_feedback e { a with value_input := a.value_input.dropLast } with
      | none => none
      | some q => some q.1

/-- Pool-slot evolution invariant of §3 of `spec.md`: across one
operation, every slot is either unchanged or goes from occupied to empty;
in particular a value, once set at construction, is never changed to a
different value, and an emptied slot is never refilled. -/
def PoolEvolves {n : Nat} (old new : Fin n → Option Nat) : Prop :=
  ∀ i, new i = old i ∨ ((old i).isSome = true ∧ new i = none)

/-- Concrete game state with a complete selection, used to instantiate
theorems about `check_solution` (it mirrors the repository test
`check_solution_returns_expected_result_if_not_all_numbers_used`). -/
def appComplete : App :=
  { current_screen := CurrentScreen.Playing,
    available_small_numbers := fun _ => some 1,
    available_large_numbers := fun _ => some 25,
    selected_numbers := [some 1, some 2, some 3, some 4, some 5, some 6],
    target := 15,
    value_input := "1 + 2 + 3 + 4 + 5".toList,
    feedback := [] }

/-- Concrete game state with an incomplete selection, used to instantiate
the theorems about the incomplete-selection panic. -/
def appIncomplete : App :=
  { current_screen := CurrentScreen.Playing,
    available_small_numbers := fun _ => some 1,
    available_large_numbers := fun _ => some 25,
    selected_numbers := [some 1, none, some 3, none, none, none],
    target := 50,
    value_input := "1 + 3".toList,
    feedback := [] }

/-- Concrete game state whose input evaluates to a negative integer:
the selection is complete and the literal usage is legal, so
`check_solution` reaches the `try_into::<u32>()` conversion, whose
`expect` panics on `-1`. -/
def appNegative : App :=
  { current_screen := CurrentScreen.Playing,
    available_small_numbers := fun _ => some 1,
    available_large_numbers := fun _ => some 25,
    selected_numbers := [some 1, some 2, some 3, some 4, some 5, some 6],
    target := 100,
    value_input := "1 - 2".toList,
    feedback := [] }

/-- Concrete game state for the safety claim: the player types `2 - 3`,
built entirely from the accepted character set, with a complete selection
that makes every usage check pass. -/
def appPanic : App :=
  { current_screen := CurrentScreen.Playing,
    available_small_numbers := fun _ => some 1,
    available_large_numbers := fun _ => some 25,
    selected_numbers := [some 1, some 2, some 3, some 4, some 5, some 6],
    target := 50,
    value_input := "2 - 3".toList,
    feedback := [] }

/-- Large pool with exactly one occupied slot (index 2), used to
instantiate the rejection-loop theorem. -/
def poolOneLarge : Fin 4 → Option Nat := fun i => if i.val = 2 then some 75 else none

/-- Small pool with exactly one occupied slot (index 7). -/
def poolOneSmall : Fin 20 → Option Nat := fun i => if i.val = 7 then some 3 else none

/-- Fully occupied large pool, used to instantiate the exhaustion
theorem. -/
def poolFullLarge : Fin 4 → Option Nat := fun _ => some 25

/-- Fully occupied small pool. -/
def poolFullSmall : Fin 20 → Option Nat := fun _ => some 1

theorem idStream_fair : FairAt idStream := by
  intro n k j hn hj
  refine ⟨n * (k + 1) + j - k, ?_⟩
  have h1 : k + 1 ≤ n * (k + 1) := Nat.le_mul_of_pos_left (k + 1) hn
  have h2 : k + (n * (k + 1) + j - k) = j + n * (k + 1) := by omega
  show (k + (n * (k + 1) + j - k)) % n = j
  rw [h2, Nat.add_mul_mod_self_left, Nat.mod_eq_of_lt hj]

theorem splitFrags_ne_nil (p : Char → Bool) (l : List Char) : splitFrags p l ≠ [] := by
  cases l with
  | nil => simp [splitFrags]
  | cons c cs =>
    rw [splitFrags]
    split
    · simp
    · split <;> simp

theorem splitFrags_eq_splitOnP (p : Char → Bool) (l : List Char) :
    splitFrags p l = l.splitOnP p := by
  induction l with
  | nil => simp [splitFrags, List.splitOnP_nil]
  | cons c cs ih =>
    rw [List.splitOnP_cons, splitFrags]
    split
    · next heq => exact absurd heq (splitFrags_ne_nil p cs)
    · next f fs heq =>
      rw [heq] at ih
      rw [← ih]
      split <;> simp [List.modifyHead]

theorem scanFold_eq (frags : List (List Char)) (accum : List Nat) :
    frags.foldl scanStep accum
    = accum ++ (frags.filter (fun f => !f.isEmpty)).filterMap parseU32 := by
  induction frags generalizing accum with
  | nil => simp
  | cons f fs ih =>
    rw [List.foldl_cons, List.filter_cons, ih]
    by_cases hf : f.isEmpty
    · simp [scanStep, hf]
    · cases hp : parseU32 f with
      | some v => simp [scanStep, hf, hp, List.filterMap_cons]
      | none => simp [scanStep, hf, hp, List.filterMap_cons]

theorem buildFreq_aux (vals : List Nat) (f0 : Nat → Nat) (v : Nat) :
    (vals.foldl (fun accum val => fun w => if w = val then accum w + 1 else accum w) f0) v
    = f0 v + vals.count v := by
  induction vals generalizing f0 with
  | nil => simp
  | cons a l ih =>
    rw [List.foldl_cons, ih]
    by_cases hv : v = a
    · subst hv
      simp [List.count_cons]
      omega
    · simp [hv, List.count_cons]

theorem buildFreq_count (vals : List Nat) (v : Nat) : buildFreq vals v = vals.count v := by
  have h := buildFreq_aux vals (fun _ => 0) v
  simpa [buildFreq] using h

theorem consume_true_iff (used : List Nat) (f : Nat → Nat) :
    consumeNumbers used f = true ↔ ∀ v, used.count v ≤ f v := by
  induction used generalizing f with
  | nil => simp [consumeNumbers]
  | cons n ns ih =>
    rw [consumeNumbers]
    by_cases h : f n = 0
    · rw [if_pos h]
      constructor
      · intro h0
        simp at h0
      · intro hall
        have hn := hall n
        rw [List.count_cons_self] at hn
        omega
    · rw [if_neg h, ih]
      constructor
      · intro hall v
        have hv := hall v
        by_cases hvn : v = n
        · subst hvn
          rw [List.count_cons_self]
          simp at hv
          omega
        · rw [List.count_cons_of_ne hvn]
          simpa [hvn] using hv
      · intro hall v
        have hv := hall v
        by_cases hvn : v = n
        · subst hvn
          rw [List.count_cons_self] at hv
          simp
          omega
        · rw [List.count_cons_of_ne hvn] at hv
          simpa [hvn] using hv

theorem expectAll_map_some (vals : List Nat) : expectAll (vals.map some) = some vals := by
  induction vals with
  | nil => rfl
  | cons v vs ih => simp [expectAll, ih]

theorem expectAll_complete (sel : List (Option Nat)) (h : ∀ o ∈ sel, o.isSome = true) :
    ∃ vals, expectAll sel = some vals ∧ sel = vals.map some := by
  induction sel with
  | nil => exact ⟨[], rfl, rfl⟩
  | cons o os ih =>
    obtain ⟨vals, hv, hsel⟩ := ih (fun x hx => h x (List.mem_cons_of_mem o hx))
    cases o with
    | none =>
      have hx := h none (List.mem_cons_self _ _)
      simp at hx
    | some v =>
      refine ⟨v :: vals, ?_, ?_⟩
      · simp [expectAll, hv]
      · simp [hsel]

theorem expectAll_incomplete (sel : List (Option Nat)) (h : ∃ o ∈ sel, o = none) :
    expectAll sel = none := by
  induction sel with
  | nil => simp at h
  | cons o os ih =>
    cases o with
    | none => rfl
    | some v =>
      obtain ⟨o2, ho2, hno⟩ := h
      rcases List.mem_cons.mp ho2 with h1 | h1
      · simp [h1] at hno
      · simp [expectAll, ih ⟨o2, h1, hno⟩]

/-- Claim C2: for every sequence of used literals and every complete
6-slot selection, `check_solution_numbers` returns a Boolean that is true
exactly when the multiset of used literals is a sub-multiset of the
multiset of selected values; in particular a value drawn `k` times may be
used at most `k` times, and a value absent from the selection makes the
validator return false. -/
theorem claim_c2_usage_validator (used vals : List Nat) (_hlen : vals.length = 6) :
    ∃ b, check_solution_numbers used (vals.map some) = some b
      ∧ (b = true ↔ (used : Multiset Nat) ≤ (vals : Multiset Nat)) := by
  refine ⟨consumeNumbers used (buildFreq vals), ?_, ?_⟩
  · simp only [check_solution_numbers, expectAll_map_some]
  · rw [consume_true_iff, Multiset.le_iff_count]
    constructor
    · intro hc a
      have hca := hc a
      simpa [buildFreq_count] using hca
    · intro hc v
      have hcv := hc v
      simpa [buildFreq_count] using hcv

/-- Claim C2 witness: the validator accepts the used literals
`[10, 2, 3, 2, 1]` against the selection `[10, 2, 3, 2, 1, 75]`, and the
corresponding multiset inclusion indeed holds. -/
theorem claim_c2_usage_validator_witness :
    check_solution_numbers [10, 2, 3, 2, 1] ([10, 2, 3, 2, 1, 75].map some) = some true
    ∧ (([10, 2, 3, 2, 1] : List Nat) : Multiset Nat)
      ≤ (([10, 2, 3, 2, 1, 75] : List Nat) : Multiset Nat) := by
  obtain ⟨b, hb, hiff⟩ :=
    claim_c2_usage_validator [10, 2, 3, 2, 1] [10, 2, 3, 2, 1, 75] (by decide)
  have hbt : check_solution_numbers [10, 2, 3, 2, 1] ([10, 2, 3, 2, 1, 75].map some)
      = some true := by decide
  rw [hbt] at hb
  injection hb with h1
  exact ⟨hbt, hiff.mp h1.symm⟩

/-- Claim C8: when at least one selection slot is `None`, the usage
validator panics (modelled by `none`) for every used-literal sequence, and
`check_solution` propagates the panic whenever its earlier checks let the
input reach the validator; when the selection is complete the panic branch
is unreachable and the validator returns a Boolean. -/
theorem claim_c8_incomplete_selection_panic (e : List Char → EvalOutcome) (a : App)
    (used : List Nat) :
    ((∃ o ∈ a.selected_numbers, o = none) →
      check_solution_numbers used a.selected_numbers = none
      ∧ (¬(trim (trim a.value_input)).isEmpty = true →
        ¬6 < (get_solution_numbers (trim a.value_input)).length →
        check_solution e a = none))
    ∧ ((∀ o ∈ a.selected_numbers, o.isSome = true) →
      ∃ b, check_solution_numbers used a.selected_numbers = some b) := by
  constructor
  · intro hinc
    have hnone : ∀ u : List Nat, check_solution_numbers u a.selected_numbers = none := by
      intro u
      simp only [check_solution_numbers, expectAll_incomplete a.selected_numbers hinc]
    refine ⟨hnone used, ?_⟩
    intro h1 h2
    simp only [check_solution]
    rw [if_neg h1, if_neg h2, hnone _]
  · intro hcomp
    obtain ⟨vals, hv, hsel⟩ := expectAll_complete a.selected_numbers hcomp
    exact ⟨consumeNumbers used (buildFreq vals), by simp only [check_solution_numbers, hv]⟩

/-- Claim C8 witness: on a concrete state whose selection has empty slots,
the validator panics and `check_solution` propagates the panic. -/
theorem claim_c8_incomplete_selection_panic_witness :
    check_solution_numbers [1, 3] appIncomplete.selected_numbers = none
    ∧ check_solution specEval appIncomplete = none := by
  have h := (claim_c8_incomplete_selection_panic specEval appIncomplete [1, 3]).1 (by decide)
  exact ⟨h.1, h.2 (by decide) (by decide)⟩

theorem dropWhile_head_false (p : Char → Bool) (l : List Char) (c : Char) (cs : List Char)
    (h : l.dropWhile p = c :: cs) : p c = false := by
  induction l with
  | nil => simp at h
  | cons x xs ih =>
    rw [List.dropWhile_cons] at h
    by_cases hx : p x = true
    · rw [if_pos hx] at h
      exact ih h
    · rw [if_neg hx] at h
      injection h with h1 h2
      subst h1
      simpa using hx

theorem trimTrail_head (l : List Char) (c : Char) (cs : List Char)
    (h : trimTrail l = c :: cs) : ∃ l0, l = c :: l0 := by
  cases l with
  | nil => simp [trimTrail] at h
  | cons x xs =>
    simp only [trimTrail] at h
    split at h
    · simp at h
    · injection h with h1 h2
      exact ⟨xs, by rw [h1]⟩

theorem trimTrail_idem (l : List Char) : trimTrail (trimTrail l) = trimTrail l := by
  induction l with
  | nil => rfl
  | cons c cs ih =>
    rw [show trimTrail (c :: cs)
        = if trimTrail cs = [] && isWhitespaceChar c then [] else c :: trimTrail cs from rfl]
    split
    · rfl
    · next hcond =>
      rw [show trimTrail (c :: trimTrail cs)
          = if trimTrail (trimTrail cs) = [] && isWhitespaceChar c then []
            else c :: trimTrail (trimTrail cs) from rfl]
      rw [ih]
      rw [if_neg hcond]

theorem trim_trim (s : List Char) : trim (trim s) = trim s := by
  cases h : trim s with
  | nil => rfl
  | cons c cs =>
    have h2 : trimTrail (s.dropWhile isWhitespaceChar) = c :: cs := by
      simpa [trim] using h
    have hhead : isWhitespaceChar c = false := by
      obtain ⟨l0, hl0⟩ := trimTrail_head _ _ _ h2
      exact dropWhile_head_false isWhitespaceChar s c l0 hl0
    simp only [trim]
    rw [List.dropWhile_cons, if_neg (by simp [hhead])]
    calc trimTrail (c :: cs)
        = trimTrail (trimTrail (s.dropWhile isWhitespaceChar)) := by rw [h2]
      _ = trimTrail (s.dropWhile isWhitespaceChar) := trimTrail_idem _
      _ = c :: cs := h2

theorem check_solution_eq (e : List Char → EvalOutcome) (a : App) :
    check_solution e a =
      if (trim a.value_input).isEmpty then some none
      else if 6 < (get_solution_numbers (trim a.value_input)).length then some none
      else
        match check_solution_numbers (get_solution_numbers (trim a.value_input))
            a.selected_numbers with
        | none => none
        | some false => some none
        | some true => check_solution_calculation e (trim a.value_input) a.target := by
  simp only [check_solution, trim_trim]

theorem check_solution_eq_complete (e : List Char → EvalOutcome) (a : App) (b : Bool)
    (hvb : check_solution_numbers (get_solution_numbers (trim a.value_input))
      a.selected_numbers = some b) :
    check_solution e a =
      if (trim a.value_input).isEmpty then some none
      else if 6 < (get_solution_numbers (trim a.value_input)).length then some none
      else if b then check_solution_calculation e (trim a.value_input) a.target
      else some none := by
  rw [check_solution_eq, hvb]
  by_cases h1 : (trim a.value_input).isEmpty
  · rw [if_pos h1, if_pos h1]
  · rw [if_neg h1, if_neg h1]
    by_cases h2 : 6 < (get_solution_numbers (trim a.value_input)).length
    · rw [if_pos h2, if_pos h2]
    · rw [if_neg h2, if_neg h2]
      cases b
      · rfl
      · rfl

theorem calc_parseError (e : List Char → EvalOutcome) (s : List Char) (t : Nat)
    (he : e s = EvalOutcome.parseError) :
    check_solution_calculation e s t = some none := by
  simp only [check_solution_calculation, he]

theorem calc_nonInt (e : List Char → EvalOutcome) (s : List Char) (t : Nat)
    (he : e s = EvalOutcome.nonIntValue) :
    check_solution_calculation e s t = none := by
  simp only [check_solution_calculation, he]

theorem calc_int (e : List Char → EvalOutcome) (s : List Char) (t : Nat) (v : Int)
    (he : e s = EvalOutcome.intValue v) :
    check_solution_calculation e s t =
      if 0 ≤ v ∧ v < 4294967296
      then some (some (if v.toNat > t then v.toNat - t else t - v.toNat))
      else none := by
  simp only [check_solution_calculation, he]

theorem dist_eq_natAbs (v : Int) (t : Nat) (h0 : 0 ≤ v) :
    (if v.toNat > t then v.toNat - t else t - v.toNat) = (v - (t : Int)).natAbs := by
  by_cases hgt : v.toNat > t <;> simp [hgt] <;> omega

/-- Claim C1 (amended): for every game state with a complete selection,
`check_solution` returns `Some d` exactly when the trimmed input is
non-empty, the scanner extracts at most 6 literals, the used literals
validate against the selection, and the evaluation yields an integer
representable as a `u32`; in that case `d` is the absolute distance from
the target (never negative, whichever of result and target is larger).
It returns `None` exactly when the trimmed input is empty, or more than 6
literals appear, or the usage validation fails, or all checks pass and the
evaluation fails with a parse error.  In the remaining cases — the three
checks pass and evaluation yields a non-integer value, a negative integer,
or an integer of at least `2 ^ 32` — it does not return at all: the
`expect` calls panic (modelled by the outer `none`). -/
theorem claim_c1_check_solution (e : List Char → EvalOutcome) (a : App)
    (hcomp : ∀ o ∈ a.selected_numbers, o.isSome = true) :
    (∀ d : Nat,
      check_solution e a = some (some d) ↔
        (¬trim a.value_input = []
         ∧ (get_solution_numbers (trim a.value_input)).length ≤ 6
         ∧ check_solution_numbers (get_solution_numbers (trim a.value_input))
             a.selected_numbers = some true
         ∧ ∃ v : Int, e (trim a.value_input) = EvalOutcome.intValue v
             ∧ 0 ≤ v ∧ v < 4294967296 ∧ d = (v - (a.target : Int)).natAbs))
    ∧ (check_solution e a = some none ↔
        (trim a.value_input = []
         ∨ 6 < (get_solution_numbers (trim a.value_input)).length
         ∨ check_solution_numbers (get_solution_numbers (trim a.value_input))
             a.selected_numbers = some false
         ∨ (¬trim a.value_input = []
            ∧ (get_solution_numbers (trim a.value_input)).length ≤ 6
            ∧ check_solution_numbers (get_solution_numbers (trim a.value_input))
                a.selected_numbers = some true
            ∧ e (trim a.value_input) = EvalOutcome.parseError)))
    ∧ (check_solution e a = none ↔
        (¬trim a.value_input = []
         ∧ (get_solution_numbers (trim a.value_input)).length ≤ 6
         ∧ check_solution_numbers (get_solution_numbers (trim a.value_input))
             a.selected_numbers = some true
         ∧ (e (trim a.value_input) = EvalOutcome.nonIntValue
            ∨ ∃ v : Int, e (trim a.value_input) = EvalOutcome.intValue v
                ∧ (v < 0 ∨ 4294967296 ≤ v)))) := by
  obtain ⟨vals, hv, hsel⟩ := expectAll_complete a.selected_numbers hcomp
  have hvb : check_solution_numbers (get_solution_numbers (trim a.value_input))
      a.selected_numbers
      = some (consumeNumbers (get_solution_numbers (trim a.value_input)) (buildFreq vals)) := by
    simp only [check_solution_numbers, hv]
  rw [check_solution_eq_complete e a _ hvb]
  by_cases h1 : (trim a.value_input).isEmpty
  · have h1e : trim a.value_input = [] := by simpa [List.isEmpty_iff] using h1
    rw [if_pos h1]
    refine ⟨fun d => ?_, ?_, ?_⟩
    · exact iff_of_false (by simp) (by rintro ⟨hne, -⟩; exact hne h1e)
    · exact iff_of_true rfl (Or.inl h1e)
    · exact iff_of_false (by simp) (by rintro ⟨hne, -⟩; exact hne h1e)
  · have h1ne : ¬trim a.value_input = [] := by simpa [List.isEmpty_iff] using h1
    rw [if_neg h1]
    by_cases h2 : 6 < (get_solution_numbers (trim a.value_input)).length
    · rw [if_pos h2]
      refine ⟨fun d => ?_, ?_, ?_⟩
      · exact iff_of_false (by simp) (by rintro ⟨-, hlen, -⟩; omega)
      · exact iff_of_true rfl (Or.inr (Or.inl h2))
      · exact iff_of_false (by simp) (by rintro ⟨-, hlen, -⟩; omega)
    · rw [if_neg h2]
      have h2le : (get_solution_numbers (trim a.value_input)).length ≤ 6 := by omega
      cases hb : consumeNumbers (get_solution_numbers (trim a.value_input)) (buildFreq vals) with
      | false =>
        rw [hb] at hvb
        rw [if_neg (by simp)]
        refine ⟨fun d => ?_, ?_, ?_⟩
        · refine iff_of_false (by simp) ?_
          rintro ⟨-, -, hvt, -⟩
          have hft := hvb.symm.trans hvt
          simp at hft
        · refine iff_of_true rfl (Or.inr (Or.inr (Or.inl hvb)))
        · refine iff_of_false (by simp) ?_
          rintro ⟨-, -, hvt, -⟩
          have hft := hvb.symm.trans hvt
          simp at hft
      | true =>
        rw [hb] at hvb
        rw [if_pos rfl]
        cases he : e (trim a.value_input) with
        | parseError =>
          rw [calc_parseError e _ _ he]
          refine ⟨fun d => ?_, ?_, ?_⟩
          · refine iff_of_false (by simp) ?_
            rintro ⟨-, -, -, v, hev, -⟩
            exact EvalOutcome.noConfusion hev
          · exact iff_of_true rfl (Or.inr (Or.inr (Or.inr ⟨h1ne, h2le, hvb, rfl⟩)))
          · refine iff_of_false (by simp) ?_
            rintro ⟨-, -, -, hbad⟩
            rcases hbad with hni | ⟨v, hev, -⟩
            · exact EvalOutcome.noConfusion hni
            · exact EvalOutcome.noConfusion hev
        | nonIntValue =>
          rw [calc_nonInt e _ _ he]
          refine ⟨fun d => ?_, ?_, ?_⟩
          · refine iff_of_false (by simp) ?_
            rintro ⟨-, -, -, v, hev, -⟩
            exact EvalOutcome.noConfusion hev
          · refine iff_of_false (by simp) ?_
            rintro (hc | hc | hc | ⟨-, -, -, hpe⟩)
            · exact h1ne hc
            · omega
            · have hft := hvb.symm.trans hc
              simp at hft
            · exact EvalOutcome.noConfusion hpe
          · exact iff_of_true rfl ⟨h1ne, h2le, hvb, Or.inl rfl⟩
        | intValue v =>
          rw [calc_int e _ _ v he]
          by_cases hr : 0 ≤ v ∧ v < 4294967296
          · rw [if_pos hr]
            refine ⟨fun d => ?_, ?_, ?_⟩
            · constructor
              · intro hd
                have hdd : d = (if v.toNat > a.target then v.toNat - a.target
                    else a.target - v.toNat) := by
                  injection hd with hd1
                  injection hd1 with hd2
                  exact hd2.symm
                refine ⟨h1ne, h2le, hvb, v, rfl, hr.1, hr.2, ?_⟩
                rw [hdd, dist_eq_natAbs v a.target hr.1]
              · rintro ⟨-, -, -, v2, hev2, h02, hlt2, hd⟩
                injection hev2 with hv2
                subst hv2
                rw [hd, ← dist_eq_natAbs v a.target hr.1]
            · refine iff_of_false (by simp) ?_
              rintro (hc | hc | hc | ⟨-, -, -, hpe⟩)
              · exact h1ne hc
              · omega
              · have hft := hvb.symm.trans hc
                simp at hft
              · exact EvalOutcome.noConfusion hpe
            · refine iff_of_false (by simp) ?_
              rintro ⟨-, -, -, hbad⟩
              rcases hbad with hni | ⟨v2, hev2, hout⟩
              · exact EvalOutcome.noConfusion hni
              · injection hev2 with hv2
                subst hv2
                omega
          · rw [if_neg hr]
            refine ⟨fun d => ?_, ?_, ?_⟩
            · refine iff_of_false (by simp) ?_
              rintro ⟨-, -, -, v2, hev2, h02, hlt2, -⟩
              injection hev2 with hv2
              subst hv2
              exact hr ⟨h02, hlt2⟩
            · refine iff_of_false (by simp) ?_
              rintro (hc | hc | hc | ⟨-, -, -, hpe⟩)
              · exact h1ne hc
              · omega
              · have hft := hvb.symm.trans hc
                simp at hft
              · exact EvalOutcome.noConfusion hpe
            · refine iff_of_true rfl ⟨h1ne, h2le, hvb, Or.inr ⟨v, rfl, by omega⟩⟩

/-- Claim C1 witness: on a concrete state with a complete selection
(`appComplete`), using the spec-modelled evaluator, the full pipeline
returns an exact-match score of 0; the proof instantiates the
characterization theorem and discharges its completeness hypothesis. -/
theorem claim_c1_check_solution_witness :
    check_solution specEval appComplete = some (some 0) :=
  ((claim_c1_check_solution specEval appComplete (by decide)).1 0).mpr
    ⟨by decide, by decide, by decide, 15, by decide, by decide, by decide, by decide⟩

/-- Claim C1 counterexample: the claim states that `check_solution`
returns `Some d` in the good case and `None` in every other case; on the
concrete state `appNegative` (complete selection `1..6`, input `1 - 2`),
the trimmed input is nonempty, the scanner and validator pass, and the
evaluation yields the integer `-1`, so the `expect` on `try_into::<u32>()`
panics — in the model the result is the outer `none`, which is neither a
returned `Some` nor a returned `None` (those are `some (some d)` and
`some none`). -/
theorem claim_c1_check_solution_counterexample :
    check_solution specEval appNegative = none
    ∧ ¬check_solution specEval appNegative = some none
    ∧ ¬check_solution specEval appNegative = some (some 101) := by decide

/-- Claim C3 (code bug): the input `2 - 3` is built from the accepted
character set, reaches the evaluation step on the concrete state
`appPanic` (complete selection, legal usage), evaluates to the negative
integer `-1`, and makes `check_solution` panic (outer `none`) through the
`expect` on `try_into::<u32>()` instead of yielding `None` — contradicting
the no-fatal-input design of the spec. -/
theorem claim_c3_panic_on_player_input :
    check_solution specEval appPanic = none
    ∧ (∀ c ∈ appPanic.value_input, c ∈ "01234567890()+-*/ ".toList) := by decide

/-- Claim C5: the scanner returns exactly the ordered sequence obtained by
splitting the input at every non-ASCII-digit character, discarding empty
fragments, and parsing each remaining fragment as an unsigned 32-bit
integer while silently skipping fragments whose parse fails; in
particular `get_solution_numbers` agrees with the spec-side `scanSpec` on
every input, and on the documented example it yields `[10, 2, 3, 2, 1]`. -/
theorem claim_c5_scanner :
    (∀ s : List Char, get_solution_numbers s = scanSpec s)
    ∧ get_solution_numbers "(10 *2) + 3 - 2 / 1".toList = [10, 2, 3, 2, 1] := by
  constructor
  · intro s
    rw [get_solution_numbers, scanSpec, scanFold_eq, splitFrags_eq_splitOnP]
    simp
  · decide
/-- The spec-modelled evaluator reproduces the repository tests of
`check_solution_calculation` (exact match, distance above, distance
below, unbalanced parentheses), and the validator tests of
`check_solution_numbers` (exact multiset, overused duplicate, absent
value). -/
theorem repo_tests_reproduced :
    check_solution_calculation specEval "(10 * 2) + 3 - 2 / 1".toList 21 = some (some 0)
    ∧ check_solution_calculation specEval "(10 * 2) + 3 - 2 / 1".toList 20 = some (some 1)
    ∧ check_solution_calculation specEval "(10 * 2) + 3 - 2 / 1".toList 22 = some (some 1)
    ∧ check_solution_calculation specEval "(10 * 2 + 3 - 2 / 1".toList 21 = some none
    ∧ check_solution_numbers [10, 2, 3, 2, 1] ([10, 2, 3, 2, 1, 75].map some) = some true
    ∧ check_solution_numbers [10, 2, 3, 2, 2] ([10, 2, 3, 2, 1, 75].map some) = some false
    ∧ check_solution_numbers [9, 2, 3, 2, 1] ([10, 2, 3, 2, 1, 75].map some) = some false := by
  decide

theorem hasAny_iff {n : Nat} (p : Fin n → Option Nat) :
    (List.ofFn p).any (fun o => o.isSome) = true ↔ ∃ j, (p j).isSome = true := by
  rw [List.any_eq_true]
  constructor
  · rintro ⟨o, ho, hso⟩
    rw [List.mem_ofFn] at ho
    obtain ⟨j, hj⟩ := ho
    exact ⟨j, by rw [hj]; exact hso⟩
  · rintro ⟨j, hj⟩
    exact ⟨p j, by rw [List.mem_ofFn]; exact ⟨j, rfl⟩, hj⟩

theorem all_none_not_hasAny {n : Nat} (p : Fin n → Option Nat) (h : ∀ i, p i = none) :
    ¬(List.ofFn p).any (fun o => o.isSome) = true := by
  rw [hasAny_iff]
  rintro ⟨j, hj⟩
  rw [h j] at hj
  simp at hj

theorem not_hasAny_all_none {n : Nat} (p : Fin n → Option Nat)
    (h : ¬(List.ofFn p).any (fun o => o.isSome) = true) : ∀ i, p i = none := by
  intro i
  cases hpi : p i with
  | none => rfl
  | some v => exact absurd ((hasAny_iff p).mpr ⟨i, by simp [hpi]⟩) h

theorem large_index_spec (σ : Nat → Nat) (hf : FairAt σ) (p : Fin 4 → Option Nat) (k : Nat)
    (hA : (List.ofFn p).any (fun o => o.isSome) = true) :
    ∃ m, random_available_large_number_index σ hf p k
        = (some (largeIndexAt σ k m), k + m + 1)
      ∧ (p (largeIndexAt σ k m)).isSome = true
      ∧ ∀ m2, m2 < m → (p (largeIndexAt σ k m2)).isSome = false := by
  refine ⟨Nat.find (exists_large_hit σ hf p k hA), ?_, ?_, ?_⟩
  · simp only [random_available_large_number_index]
    rw [dif_pos hA]
  · exact Nat.find_spec (exists_large_hit σ hf p k hA)
  · intro m2 hm2
    have h := Nat.find_min (exists_large_hit σ hf p k hA) hm2
    simpa using h

theorem small_index_spec (σ : Nat → Nat) (hf : FairAt σ) (p : Fin 20 → Option Nat) (k : Nat)
    (hA : (List.ofFn p).any (fun o => o.isSome) = true) :
    ∃ m, random_available_small_number_index σ hf p k
        = (some (smallIndexAt σ k m), k + m + 1)
      ∧ (p (smallIndexAt σ k m)).isSome = true
      ∧ ∀ m2, m2 < m → (p (smallIndexAt σ k m2)).isSome = false := by
  refine ⟨Nat.find (exists_small_hit σ hf p k hA), ?_, ?_, ?_⟩
  · simp only [random_available_small_number_index]
    rw [dif_pos hA]
  · exact Nat.find_spec (exists_small_hit σ hf p k hA)
  · intro m2 hm2
    have h := Nat.find_min (exists_small_hit σ hf p k hA) hm2
    simpa using h

theorem large_index_none (σ : Nat → Nat) (hf : FairAt σ) (p : Fin 4 → Option Nat) (k : Nat)
    (hA : ¬(List.ofFn p).any (fun o => o.isSome) = true) :
    random_available_large_number_index σ hf p k = (none, k) := by
  simp only [random_available_large_number_index]
  rw [dif_neg hA]

theorem small_index_none (σ : Nat → Nat) (hf : FairAt σ) (p : Fin 20 → Option Nat) (k : Nat)
    (hA : ¬(List.ofFn p).any (fun o => o.isSome) = true) :
    random_available_small_number_index σ hf p k = (none, k) := by
  simp only [random_available_small_number_index]
  rw [dif_neg hA]

/-- Claim C9: whenever a pool still has an occupied slot, the
rejection-sampling loop terminates (the function is defined and returns
`some`) at the first sampled occupied slot: the returned index is
occupied, and every earlier sample of the loop hit an empty slot — the
loop can only exit on an occupied slot.  This holds for both pools, for
every fair random stream. -/
theorem claim_c9_rejection_loop (σ : Nat → Nat) (hf : FairAt σ) (k : Nat)
    (pL : Fin 4 → Option Nat) (pS : Fin 20 → Option Nat) :
    ((List.ofFn pL).any (fun o => o.isSome) = true →
      ∃ m, random_available_large_number_index σ hf pL k
          = (some (largeIndexAt σ k m), k + m + 1)
        ∧ (pL (largeIndexAt σ k m)).isSome = true
        ∧ ∀ m2, m2 < m → (pL (largeIndexAt σ k m2)).isSome = false)
    ∧ ((List.ofFn pS).any (fun o => o.isSome) = true →
      ∃ m, random_available_small_number_index σ hf pS k
          = (some (smallIndexAt σ k m), k + m + 1)
        ∧ (pS (smallIndexAt σ k m)).isSome = true
        ∧ ∀ m2, m2 < m → (pS (smallIndexAt σ k m2)).isSome = false) :=
  ⟨large_index_spec σ hf pL k, small_index_spec σ hf pS k⟩

/-- Claim C9 witness: on a large pool whose only occupied slot is index 2,
with the identity stream started at 0, the loop exits with an occupied
index. -/
theorem claim_c9_rejection_loop_witness :
    ∃ m, random_available_large_number_index idStream idStream_fair poolOneLarge 0
        = (some (largeIndexAt idStream 0 m), 0 + m + 1)
      ∧ (poolOneLarge (largeIndexAt idStream 0 m)).isSome = true
      ∧ ∀ m2, m2 < m → (poolOneLarge (largeIndexAt idStream 0 m2)).isSome = false :=
  (claim_c9_rejection_loop idStream idStream_fair 0 poolOneLarge poolOneSmall).1 (by decide)

theorem pick_large_cases (σ : Nat → Nat) (hf : FairAt σ) (a : App) (k : Nat) :
    (pick_random_large_number σ hf a k).1 = a
    ∨ ∃ i j, (a.available_large_numbers i).isSome = true
        ∧ (pick_random_large_number σ hf a k).1
          = { a with
              selected_numbers := a.selected_numbers.set j (a.available_large_numbers i),
              available_large_numbers :=
                Function.update a.available_large_numbers i none } := by
  simp only [pick_random_large_number]
  split
  · split
    · split
      · next hres =>
        right
        exact ⟨_, _, hres, rfl⟩
      · left
        rfl
    · left
      rfl
  · left
    rfl

theorem pick_small_cases (σ : Nat → Nat) (hf : FairAt σ) (a : App) (k : Nat) :
    (pick_random_small_number σ hf a k).1 = a
    ∨ ∃ i j, (a.available_small_numbers i).isSome = true
        ∧ (pick_random_small_number σ hf a k).1
          = { a with
              selected_numbers := a.selected_numbers.set j (a.available_small_numbers i),
              available_small_numbers :=
                Function.update a.available_small_numbers i none } := by
  simp only [pick_random_small_number]
  split
  · split
    · split
      · next hres =>
        right
        exact ⟨_, _, hres, rfl⟩
      · left
        rfl
    · left
      rfl
  · left
    rfl

theorem update_feedback_fields (e : List Char → EvalOutcome) (a : App) (q : App × Option Nat)
    (h : update_feedback e a = some q) :
    q.1.available_large_numbers = a.available_large_numbers
    ∧ q.1.available_small_numbers = a.available_small_numbers
    ∧ q.1.target = a.target
    ∧ q.1.selected_numbers = a.selected_numbers := by
  simp only [update_feedback] at h
  cases hcs : check_solution e a with
  | none =>
    rw [hcs] at h
    exact Option.noConfusion h
  | some res =>
    rw [hcs] at h
    injection h with h1
    subst h1
    exact ⟨rfl, rfl, rfl, rfl⟩

theorem appendChar_fields (e : List Char → EvalOutcome) (a : App) (c : Char) (a1 : App)
    (h : appendChar e a c = some a1) :
    a1.available_large_numbers = a.available_large_numbers
    ∧ a1.available_small_numbers = a.available_small_numbers
    ∧ a1.target = a.target
    ∧ a1.selected_numbers = a.selected_numbers := by
  simp only [appendChar] at h
  split at h
  · cases hup : update_feedback e { a with value_input := a.value_input ++ [c] } with
    | none =>
      rw [hup] at h
      exact Option.noConfusion h
    | some q =>
      rw [hup] at h
      injection h with h1
      subst h1
      exact update_feedback_fields e { a with value_input := a.value_input ++ [c] } q hup
  · injection h with h1
    subst h1
    exact ⟨rfl, rfl, rfl, rfl⟩

theorem backspace_fields (e : List Char → EvalOutcome) (a : App) (a1 : App)
    (h : backspace e a = some a1) :
    a1.available_large_numbers = a.available_large_numbers
    ∧ a1.available_small_numbers = a.available_small_numbers
    ∧ a1.target = a.target
    ∧ a1.selected_numbers = a.selected_numbers := by
  simp only [backspace] at h
  split at h
  · injection h with h1
    subst h1
    exact ⟨rfl, rfl, rfl, rfl⟩
  · split at h
    · injection h with h1
      subst h1
      exact ⟨rfl, rfl, rfl, rfl⟩
    · cases hup : update_feedback e { a with value_input := a.value_input.dropLast } with
      | none =>
        rw [hup] at h
        exact Option.noConfusion h
      | some q =>
        rw [hup] at h
        injection h with h1
        subst h1
        exact update_feedback_fields e { a with value_input := a.value_input.dropLast } q hup

theorem pick_large_evolve (σ : Nat → Nat) (hf : FairAt σ) (a : App) (k : Nat) :
    PoolEvolves a.available_large_numbers
      (pick_random_large_number σ hf a k).1.available_large_numbers
    ∧ (pick_random_large_number σ hf a k).1.available_small_numbers
      = a.available_small_numbers := by
  rcases pick_large_cases σ hf a k with h | ⟨i, j, hocc, h⟩
  · rw [h]
    exact ⟨fun i2 => Or.inl rfl, rfl⟩
  · rw [h]
    refine ⟨fun i2 => ?_, rfl⟩
    by_cases hii : i2 = i
    · subst hii
      right
      exact ⟨hocc, by simp⟩
    · left
      exact Function.update_noteq hii none a.available_large_numbers

theorem pick_small_evolve (σ : Nat → Nat) (hf : FairAt σ) (a : App) (k : Nat) :
    PoolEvolves a.available_small_numbers
      (pick_random_small_number σ hf a k).1.available_small_numbers
    ∧ (pick_random_small_number σ hf a k).1.available_large_numbers
      = a.available_large_numbers := by
  rcases pick_small_cases σ hf a k with h | ⟨i, j, hocc, h⟩
  · rw [h]
    exact ⟨fun i2 => Or.inl rfl, rfl⟩
  · rw [h]
    refine ⟨fun i2 => ?_, rfl⟩
    by_cases hii : i2 = i
    · subst hii
      right
      exact ⟨hocc, by simp⟩
    · left
      exact Function.update_noteq hii none a.available_small_numbers

/-- Claim C6: every operation on the game state preserves the pool
invariant: a pool draw (`pick_random_large_number`,
`pick_random_small_number`) either leaves its pool unchanged or empties
exactly one slot that was occupied — never rewriting a slot to a
different value and never refilling an emptied slot — and leaves the
other pool unchanged; the input-buffer edits leave both pools unchanged
(`check_solution` is a pure query in the model: it produces no new state
at all). -/
theorem claim_c6_pool_invariant (σ : Nat → Nat) (hf : FairAt σ) (a : App) (k : Nat)
    (e : List Char → EvalOutcome) (c : Char) :
    (PoolEvolves a.available_large_numbers
        (pick_random_large_number σ hf a k).1.available_large_numbers
      ∧ (pick_random_large_number σ hf a k).1.available_small_numbers
        = a.available_small_numbers)
    ∧ (PoolEvolves a.available_small_numbers
        (pick_random_small_number σ hf a k).1.available_small_numbers
      ∧ (pick_random_small_number σ hf a k).1.available_large_numbers
        = a.available_large_numbers)
    ∧ (∀ a1, appendChar e a c = some a1 →
        a1.available_large_numbers = a.available_large_numbers
        ∧ a1.available_small_numbers = a.available_small_numbers)
    ∧ (∀ a1, backspace e a = some a1 →
        a1.available_large_numbers = a.available_large_numbers
        ∧ a1.available_small_numbers = a.available_small_numbers) := by
  refine ⟨pick_large_evolve σ hf a k, pick_small_evolve σ hf a k, ?_, ?_⟩
  · intro a1 h
    have hfs := appendChar_fields e a c a1 h
    exact ⟨hfs.1, hfs.2.1⟩
  · intro a1 h
    have hfs := backspace_fields e a a1 h
    exact ⟨hfs.1, hfs.2.1⟩

/-- Claim C6 witness: the invariant instantiated on a concrete state and
the identity stream. -/
theorem claim_c6_pool_invariant_witness :
    PoolEvolves appComplete.available_large_numbers
      (pick_random_large_number idStream idStream_fair appComplete 0).1.available_large_numbers
    ∧ (pick_random_large_number idStream idStream_fair appComplete 0).1.available_small_numbers
      = appComplete.available_small_numbers :=
  (claim_c6_pool_invariant idStream idStream_fair appComplete 0 specEval '1').1

theorem findIdx_none_of_complete (sel : List (Option Nat))
    (h : ∀ o ∈ sel, o.isSome = true) :
    sel.findIdx? (fun v => v.isNone) = none := by
  rw [List.findIdx?_eq_none_iff]
  intro x hx
  have hs := h x hx
  cases x with
  | none => simp at hs
  | some v => rfl

/-- Claim C10: when the selection is already full, both pick operations
leave the entire game state unchanged: the selection does not grow, and
the randomly chosen pool slot is not marked empty, so no number is
consumed from the pool.  (The thread-local random generator, which lives
outside the `App` struct, does advance.) -/
theorem claim_c10_pick_noop_when_full (σ : Nat → Nat) (hf : FairAt σ) (a : App) (k : Nat)
    (hsel : is_number_selection_complete a = true) :
    (pick_random_large_number σ hf a k).1 = a
    ∧ (pick_random_small_number σ hf a k).1 = a := by
  have hany : a.selected_numbers.any (fun v => v.isNone) = false := by
    simpa [is_number_selection_complete] using hsel
  have hcomp : ∀ o ∈ a.selected_numbers, o.isSome = true := by
    intro o ho
    have hfalse := List.any_eq_false.mp hany o ho
    cases o with
    | none => simp at hfalse
    | some v => rfl
  have hfind := findIdx_none_of_complete a.selected_numbers hcomp
  constructor
  · simp only [pick_random_large_number]
    split
    · rw [hfind]
    · rfl
  · simp only [pick_random_small_number]
    split
    · rw [hfind]
    · rfl

/-- Claim C10 witness: on a concrete state with a full selection and the
identity stream, both picks return the state unchanged. -/
theorem claim_c10_pick_noop_when_full_witness :
    (pick_random_large_number idStream idStream_fair appComplete 0).1 = appComplete
    ∧ (pick_random_small_number idStream idStream_fair appComplete 0).1 = appComplete :=
  claim_c10_pick_noop_when_full idStream idStream_fair appComplete 0 (by decide)

theorem pick_large_target (σ : Nat → Nat) (hf : FairAt σ) (a : App) (k : Nat) :
    (pick_random_large_number σ hf a k).1.target = a.target := by
  rcases pick_large_cases σ hf a k with h | ⟨i, j, hocc, h⟩ <;> rw [h]

theorem pick_small_target (σ : Nat → Nat) (hf : FairAt σ) (a : App) (k : Nat) :
    (pick_random_small_number σ hf a k).1.target = a.target := by
  rcases pick_small_cases σ hf a k with h | ⟨i, j, hocc, h⟩ <;> rw [h]

theorem App_new_target_range (σ : Nat → Nat) :
    100 ≤ (App.new σ).1.target ∧ (App.new σ).1.target < 1000 := by
  simp only [App.new]
  constructor <;> omega

/-- Claim C4 (amended): for every raw stream, a freshly constructed game
has its target in the half-open interval [100, 1000) — that is,
100 ≤ target ≤ 999; the code draws `gen_range(100..1_000)`, so 999 is
attainable, unlike the claimed [100, 999) — and no operation other than
constructing a new game changes the target: both pick operations and both
input-buffer edits preserve it (`check_solution` is a pure query and
produces no new state at all). -/
theorem claim_c4_target (σ : Nat → Nat) (hf : FairAt σ) (a : App) (k : Nat)
    (e : List Char → EvalOutcome) (c : Char) :
    (100 ≤ (App.new σ).1.target ∧ (App.new σ).1.target < 1000)
    ∧ (pick_random_large_number σ hf a k).1.target = a.target
    ∧ (pick_random_small_number σ hf a k).1.target = a.target
    ∧ (∀ a1, appendChar e a c = some a1 → a1.target = a.target)
    ∧ (∀ a1, backspace e a = some a1 → a1.target = a.target) := by
  refine ⟨App_new_target_range σ, pick_large_target σ hf a k,
    pick_small_target σ hf a k, ?_, ?_⟩
  · intro a1 h
    exact (appendChar_fields e a c a1 h).2.2.1
  · intro a1 h
    exact (backspace_fields e a a1 h).2.2.1

/-- Claim C4 counterexample: the claim places the target in the half-open
interval [100, 999).  With the constant raw stream 899 every
`gen_range(0..=i)` of the shuffles is served, and the target draw
`gen_range(100..1_000)` yields `100 + 899 % 900 = 999`, which lies
outside [100, 999). -/
theorem claim_c4_target_counterexample :
    (App.new (fun _ => 899)).1.target = 999
    ∧ ¬(App.new (fun _ => 899)).1.target < 999 := by
  constructor
  · decide
  · decide

/-- Claim C4 witness: the amended range and preservation instantiated on
the identity stream and a concrete state. -/
theorem claim_c4_target_witness :
    (100 ≤ (App.new idStream).1.target ∧ (App.new idStream).1.target < 1000)
    ∧ (pick_random_large_number idStream idStream_fair appComplete 0).1.target
      = appComplete.target :=
  ⟨(claim_c4_target idStream idStream_fair appComplete 0 specEval '1').1,
    (claim_c4_target idStream idStream_fair appComplete 0 specEval '1').2.1⟩

theorem occ_zero_iff {n : Nat} (p : Fin n → Option Nat) :
    (Finset.univ.filter (fun j => (p j).isSome = true)).card = 0 ↔ ∀ i, p i = none := by
  rw [Finset.card_eq_zero, Finset.filter_eq_empty_iff]
  constructor
  · intro h i
    have hi := h (Finset.mem_univ i)
    cases hpi : p i with
    | none => rfl
    | some v =>
      rw [hpi] at hi
      simp at hi
  · intro h i _
    rw [h i]
    simp

theorem occ_update {n : Nat} (p : Fin n → Option Nat) (i : Fin n)
    (hi : (p i).isSome = true) :
    (Finset.univ.filter (fun j => (Function.update p i none j).isSome = true)).card
    = (Finset.univ.filter (fun j => (p j).isSome = true)).card - 1 := by
  have hset : Finset.univ.filter (fun j => (Function.update p i none j).isSome = true)
      = (Finset.univ.filter (fun j => (p j).isSome = true)).erase i := by
    ext j
    simp only [Finset.mem_filter, Finset.mem_erase, Finset.mem_univ, true_and]
    by_cases hj : j = i
    · subst hj
      simp
    · rw [Function.update_noteq hj]
      constructor
      · intro hjj
        exact ⟨hj, hjj⟩
      · rintro ⟨-, hjj⟩
        exact hjj
  rw [hset, Finset.card_erase_of_mem]
  rw [Finset.mem_filter]
  exact ⟨Finset.mem_univ i, hi⟩

theorem drainLarge_succ_some (σ : Nat → Nat) (hf : FairAt σ) (n : Nat)
    (p : Fin 4 → Option Nat) (k : Nat) (i : Fin 4) (k1 : Nat)
    (h : random_available_large_number_index σ hf p k = (some i, k1)) :
    drainLarge σ hf (n + 1) p k = drainLarge σ hf n (Function.update p i none) k1 := by
  rw [drainLarge, h]

theorem drainLarge_succ_none (σ : Nat → Nat) (hf : FairAt σ) (n : Nat)
    (p : Fin 4 → Option Nat) (k : Nat) (k1 : Nat)
    (h : random_available_large_number_index σ hf p k = (none, k1)) :
    drainLarge σ hf (n + 1) p k = drainLarge σ hf n p k1 := by
  rw [drainLarge, h]

theorem drainSmall_succ_some (σ : Nat → Nat) (hf : FairAt σ) (n : Nat)
    (p : Fin 20 → Option Nat) (k : Nat) (i : Fin 20) (k1 : Nat)
    (h : random_available_small_number_index σ hf p k = (some i, k1)) :
    drainSmall σ hf (n + 1) p k = drainSmall σ hf n (Function.update p i none) k1 := by
  rw [drainSmall, h]

theorem drainSmall_succ_none (σ : Nat → Nat) (hf : FairAt σ) (n : Nat)
    (p : Fin 20 → Option Nat) (k : Nat) (k1 : Nat)
    (h : random_available_small_number_index σ hf p k = (none, k1)) :
    drainSmall σ hf (n + 1) p k = drainSmall σ hf n p k1 := by
  rw [drainSmall, h]

theorem drainLarge_empties (σ : Nat → Nat) (hf : FairAt σ) :
    ∀ (n : Nat) (p : Fin 4 → Option Nat) (k : Nat),
      (Finset.univ.filter (fun j => (p j).isSome = true)).card ≤ n →
      ∀ i, (drainLarge σ hf n p k).1 i = none := by
  intro n
  induction n with
  | zero =>
    intro p k hcard i
    have h0 : (Finset.univ.filter (fun j => (p j).isSome = true)).card = 0 := by omega
    have hall := (occ_zero_iff p).mp h0
    simpa [drainLarge] using hall i
  | succ n ih =>
    intro p k hcard i
    by_cases hA : (List.ofFn p).any (fun o => o.isSome) = true
    · obtain ⟨m, heq, hocc, -⟩ := large_index_spec σ hf p k hA
      rw [drainLarge_succ_some σ hf n p k _ _ heq]
      apply ih
      rw [occ_update p _ hocc]
      omega
    · rw [drainLarge_succ_none σ hf n p k k (large_index_none σ hf p k hA)]
      apply ih
      have h0 := (occ_zero_iff p).mpr (not_hasAny_all_none p hA)
      omega

theorem drainSmall_empties (σ : Nat → Nat) (hf : FairAt σ) :
    ∀ (n : Nat) (p : Fin 20 → Option Nat) (k : Nat),
      (Finset.univ.filter (fun j => (p j).isSome = true)).card ≤ n →
      ∀ i, (drainSmall σ hf n p k).1 i = none := by
  intro n
  induction n with
  | zero =>
    intro p k hcard i
    have h0 : (Finset.univ.filter (fun j => (p j).isSome = true)).card = 0 := by omega
    have hall := (occ_zero_iff p).mp h0
    simpa [drainSmall] using hall i
  | succ n ih =>
    intro p k hcard i
    by_cases hA : (List.ofFn p).any (fun o => o.isSome) = true
    · obtain ⟨m, heq, hocc, -⟩ := small_index_spec σ hf p k hA
      rw [drainSmall_succ_some σ hf n p k _ _ heq]
      apply ih
      rw [occ_update p _ hocc]
      omega
    · rw [drainSmall_succ_none σ hf n p k k (small_index_none σ hf p k hA)]
      apply ih
      have h0 := (occ_zero_iff p).mpr (not_hasAny_all_none p hA)
      omega

/-- Claim C7: for both pools, drawing succeeds exactly as long as some
slot is occupied: starting from a fully occupied pool, drawing exactly N
times (N = 4 for the large pool, N = 20 for the small pool) leaves every
slot `None`, and the next draw attempt returns `none` rather than an
index. -/
theorem claim_c7_exhaustion (σ : Nat → Nat) (hf : FairAt σ) (k : Nat)
    (pL : Fin 4 → Option Nat) (pS : Fin 20 → Option Nat) :
    ((∀ i, (pL i).isSome = true) →
      (∀ i, (drainLarge σ hf 4 pL k).1 i = none)
      ∧ random_available_large_number_index σ hf (drainLarge σ hf 4 pL k).1
          (drainLarge σ hf 4 pL k).2
        = (none, (drainLarge σ hf 4 pL k).2))
    ∧ ((∀ i, (pS i).isSome = true) →
      (∀ i, (drainSmall σ hf 20 pS k).1 i = none)
      ∧ random_available_small_number_index σ hf (drainSmall σ hf 20 pS k).1
          (drainSmall σ hf 20 pS k).2
        = (none, (drainSmall σ hf 20 pS k).2)) := by
  constructor
  · intro hfull
    have hcard : (Finset.univ.filter (fun j => (pL j).isSome = true)).card ≤ 4 := by
      have hle := Finset.card_le_card (Finset.filter_subset
        (fun j => (pL j).isSome = true) Finset.univ)
      simpa using hle
    have hempty := drainLarge_empties σ hf 4 pL k hcard
    exact ⟨hempty, large_index_none σ hf _ _ (all_none_not_hasAny _ hempty)⟩
  · intro hfull
    have hcard : (Finset.univ.filter (fun j => (pS j).isSome = true)).card ≤ 20 := by
      have hle := Finset.card_le_card (Finset.filter_subset
        (fun j => (pS j).isSome = true) Finset.univ)
      simpa using hle
    have hempty := drainSmall_empties σ hf 20 pS k hcard
    exact ⟨hempty, small_index_none σ hf _ _ (all_none_not_hasAny _ hempty)⟩

/-- Claim C7 witness: draining the fully occupied large pool four times
with the identity stream leaves slot 2 empty and makes the next draw
return nothing. -/
theorem claim_c7_exhaustion_witness :
    (drainLarge idStream idStream_fair 4 poolFullLarge 0).1 2 = none
    ∧ random_available_large_number_index idStream idStream_fair
        (drainLarge idStream idStream_fair 4 poolFullLarge 0).1
        (drainLarge idStream idStream_fair 4 poolFullLarge 0).2
      = (none, (drainLarge idStream idStream_fair 4 poolFullLarge 0).2) := by
  have h := (claim_c7_exhaustion idStream idStream_fair 0 poolFullLarge poolFullSmall).1
    (by decide)
  exact ⟨h.1 2, h.2⟩
